import Mathlib

/-!
Verification development for the atest command-line translator
(`atest/cli_translator.py`).  The Python module is shallowly embedded:

* pure string manipulation (reference classification, `#`-splitting,
  path arithmetic, the regexes `INT_NAME_RE` and `PACKAGE_RE`) is
  translated into executable Lean functions on `String` / `List Char`;
* the filesystem and subprocess surface (the `find` invocations, file
  reads, the interactive disambiguation prompt) is represented by an
  explicit environment of oracles, and every such access is recorded as
  an `IOEvent` so that theorems can speak about *which* I/O a code path
  performs and in what order;
* fallible code (`TooManyMethodsError`, unpacking `a, b = s.split(c)`,
  `IndexError` on empty metadata lists, …) returns `Except Err _`;
* the frozenset-valued data (`TestFilter.methods`, `TestInfo.filters`)
  becomes `Finset`, and set iteration order, where observable (the
  flatten/merge loops), is modelled by taking a `List` enumeration as
  input.
-/

namespace Atest

/-! ## Basic string machinery (Python `str` operations used by the code) -/

/-- Prefix test on character lists (`s.startswith(p)` over explicit lists). -/
def isPrefixCL : List Char → List Char → Bool
  | [], _ => true
  | _ :: _, [] => false
  | a :: as, b :: bs => if a = b then isPrefixCL as bs else false

/-- Substring containment on character lists (Python `pat in s`). -/
def containsSub (pat : List Char) : List Char → Bool
  | [] => isPrefixCL pat []
  | c :: rest => isPrefixCL pat (c :: rest) || containsSub pat rest

/-- Python `s.split(c)` on character lists: splits at every occurrence of
`c`, keeping empty pieces, and yields `[[]]` on the empty string. -/
def splitOnChar (c : Char) : List Char → List (List Char)
  | [] => [[]]
  | x :: xs =>
    let r := splitOnChar c xs
    if x = c then [] :: r
    else
      match r with
      | [] => [[x]]
      | h :: t => (x :: h) :: t

/-- Python `s.split(c)` returning `String` pieces. -/
def py_split (s : String) (c : Char) : List String :=
  (splitOnChar c s.toList).map (fun l => (⟨l⟩ : String))

/-- Number of occurrences of a character in a character list. -/
def countChar (c : Char) : List Char → Nat
  | [] => 0
  | x :: xs => (if x = c then 1 else 0) + countChar c xs

/-! ## Reference types and the classifier (`_get_test_reference_types`) -/

/-- The `REFERENCE_TYPE` enum of `cli_translator.py`. -/
inductive REFERENCE_TYPE where
  | MODULE
  | CLASS
  | QUALIFIED_CLASS
  | MODULE_CLASS
  | PACKAGE
  | MODULE_PACKAGE
  | FILE_PATH
  | INTEGRATION
  | SUITE
deriving DecidableEq, Repr

/-- `CLITranslator._get_test_reference_types`: pure lexical classification of a
test reference string into an ordered candidate list.  Translated clause by
clause from the source; performs no I/O (its type has no environment). -/
def get_test_reference_types (ref : String) : List REFERENCE_TYPE :=
  if ref.toList.take 1 = ['.'] ∨ containsSub ['.', '.'] ref.toList then
    [REFERENCE_TYPE.FILE_PATH]
  else if '/' ∈ ref.toList then
    if ref.toList.take 1 = ['/'] then [REFERENCE_TYPE.FILE_PATH]
    else [REFERENCE_TYPE.FILE_PATH, REFERENCE_TYPE.INTEGRATION]
  else if ':' ∈ ref.toList then
    if '.' ∈ ref.toList then
      [REFERENCE_TYPE.MODULE_CLASS, REFERENCE_TYPE.MODULE_PACKAGE,
       REFERENCE_TYPE.INTEGRATION]
    else [REFERENCE_TYPE.MODULE_CLASS, REFERENCE_TYPE.INTEGRATION]
  else if '.' ∈ ref.toList then
    [REFERENCE_TYPE.FILE_PATH, REFERENCE_TYPE.QUALIFIED_CLASS,
     REFERENCE_TYPE.PACKAGE]
  else [REFERENCE_TYPE.INTEGRATION, REFERENCE_TYPE.MODULE, REFERENCE_TYPE.CLASS]

/-- Modelled from the spec: the lexical classification rules of section 4.1,
written out rule by rule from the spec's words, for comparison with the
source-derived `get_test_reference_types`. -/
def classify_spec (ref : String) : List REFERENCE_TYPE :=
  if ref.toList.take 1 = ['.'] ∨ containsSub ['.', '.'] ref.toList then
    [REFERENCE_TYPE.FILE_PATH]
  else if '/' ∈ ref.toList then
    if ref.toList.take 1 = ['/'] then [REFERENCE_TYPE.FILE_PATH]
    else [REFERENCE_TYPE.FILE_PATH, REFERENCE_TYPE.INTEGRATION]
  else if ':' ∈ ref.toList then
    if '.' ∈ ref.toList then
      [REFERENCE_TYPE.MODULE_CLASS, REFERENCE_TYPE.MODULE_PACKAGE,
       REFERENCE_TYPE.INTEGRATION]
    else [REFERENCE_TYPE.MODULE_CLASS, REFERENCE_TYPE.INTEGRATION]
  else if '.' ∈ ref.toList then
    [REFERENCE_TYPE.FILE_PATH, REFERENCE_TYPE.QUALIFIED_CLASS,
     REFERENCE_TYPE.PACKAGE]
  else [REFERENCE_TYPE.INTEGRATION, REFERENCE_TYPE.MODULE, REFERENCE_TYPE.CLASS]

/-! ## Data model: `TestFilter`, `TestInfo` and their TradeFed serialization -/

/-- The `TestFilter` namedtuple: `(class_name, methods)` with `methods` a
frozenset of method-name strings. -/
structure TestFilter where
  class_name : String
  methods : Finset String
deriving DecidableEq

/-- The `TestInfo` namedtuple: `(rel_config, module_name, integrated_name,
filters)`.  `module_name` / `integrated_name` are `None`-able strings. -/
structure TestInfo where
  rel_config : String
  module_name : Option String
  integrated_name : Option String
  filters : Finset TestFilter
deriving DecidableEq

/-- Python truthiness of an optional string (`None` and `''` are falsy). -/
def py_truthy : Option String → Bool
  | none => false
  | some s => s ≠ ""

/-- `TestFilter.to_set_of_tf_strings`: one `"Class#Method"` string per method,
or the bare class name when the method set is empty. -/
def to_set_of_tf_strings (f : TestFilter) : Finset String :=
  if f.methods = ∅ then {f.class_name}
  else f.methods.image (fun m => f.class_name ++ "#" ++ m)

/-- `TestInfo.to_tf_dict`: the serialized form `{'test': ..., 'filters': ...}`
written to `test_info.json`; the `filters` value (a Python `list(set)`) is
modelled as the underlying `Finset`. -/
def to_tf_dict (ti : TestInfo) : Option String × Finset String :=
  (if py_truthy ti.integrated_name then ti.integrated_name else ti.module_name,
   ti.filters.biUnion to_set_of_tf_strings)

/-! ## Errors and `_split_methods` -/

/-- Exceptions raised by the translator (plus Python's own `ValueError` /
`IndexError`, which the code can raise via unguarded unpacking/indexing). -/
inductive Err where
  | tooManyMethods
  | missingPackageName (path : String)
  | testWithNoModule
  | unregisteredModule
  | valueError
  | indexError
deriving DecidableEq, Repr

/-- `CLITranslator._split_methods`: split a user input string on `#` into a
test reference and a frozenset of method names; more than one `#` raises
`TooManyMethodsError`. -/
def split_methods (user_input : String) : Except Err (String × Finset String) :=
  match py_split user_input '#' with
  | [p] => .ok (p, ∅)
  | [p, m] => .ok (p, (py_split m ',').toFinset)
  | _ => .error .tooManyMethods

/-- Python tuple unpacking `a, b = s.split(c)`: raises `ValueError` unless the
split has exactly two pieces. -/
def unpack2 (s : String) (c : Char) : Except Err (String × String) :=
  match py_split s c with
  | [a, b] => .ok (a, b)
  | _ => .error .valueError

/-! ## Path arithmetic (`os.path` operations, modelled on POSIX strings) -/

/-- `os.path.join` for two components. -/
def pathJoin (a b : String) : String :=
  if b.toList.take 1 = ['/'] then b
  else if a = "" then b
  else if a.toList.getLast? = some '/' then a ++ b
  else a ++ "/" ++ b

/-- `os.path.dirname` (POSIX): everything before the last `/`, with trailing
slashes stripped unless the result is all slashes. -/
def dirname (p : String) : String :=
  let l := p.toList
  let head := (l.reverse.dropWhile (fun c => c ≠ '/')).reverse
  if head = [] then ""
  else if head.all (fun c => c = '/') then ⟨head⟩
  else ⟨(head.reverse.dropWhile (fun c => c = '/')).reverse⟩

/-- `os.path.split(p)[1]` (POSIX basename): everything after the last `/`. -/
def basename (p : String) : String :=
  ⟨(p.toList.reverse.takeWhile (fun c => c ≠ '/')).reverse⟩

/-- `os.path.splitext(name)[0]`: drop the last extension; dots leading the
name do not start an extension. -/
def splitext_stem (nm : String) : String :=
  let l := nm.toList
  let lead := (l.takeWhile (fun c => c = '.')).length
  let idxs := (List.range l.length).filter
    (fun i => l.get? i = some '.' ∧ lead ≤ i)
  match idxs.getLast? with
  | some i => ⟨l.take i⟩
  | none => nm

/-- `os.path.relpath(p, start)` restricted to the one case this code
exercises: `p` lying strictly under `start` (the prefix and separator are
dropped); any other input is returned unchanged. -/
def relpath (p start : String) : String :=
  if isPrefixCL (start ++ "/").toList p.toList then
    ⟨p.toList.drop (start.toList.length + 1)⟩
  else p

/-- Python `s.strip('\n')`. -/
def strip_nl (s : String) : String :=
  ⟨((s.toList.dropWhile (fun c => c = '\n')).reverse.dropWhile
      (fun c => c = '\n')).reverse⟩

/-! ## `_extract_test_path`: candidate list and external disambiguation -/

/-- The ordered candidate list the code derives from a `find` command's raw
output: `output.strip('\n').split('\n')`.  When there is more than one entry
the code prints exactly this list, numbered in this order. -/
def candidate_list (output : String) : List String :=
  py_split (strip_nl output) '\n'

/-- `CLITranslator._extract_test_path`.  The interactive
`int(raw_input(...))` read is modelled by the externally supplied index
`choice`; it is consulted only when the output holds more than one test.  An
out-of-range index (Python would raise `IndexError`) is modelled as `none`. -/
def extract_test_path (output : String) (choice : Nat) : Option String :=
  if output = "" then none
  else
    let tests := candidate_list output
    let test_index := if 1 < tests.length then choice else 0
    tests.get? test_index

/-! ## Regex models: `PACKAGE_RE` and `INT_NAME_RE` -/

/-- Python `\s` character class. -/
def isSpaceChar (c : Char) : Bool :=
  c = ' ' || c = '\t' || c = '\n' || c = '\r' || c = Char.ofNat 11 ||
    c = Char.ofNat 12

/-- Case-insensitive prefix test (for `re.I`). -/
def isPrefixCI : List Char → List Char → Bool
  | [], _ => true
  | _ :: _, [] => false
  | a :: as, b :: bs => if a.toLower = b.toLower then isPrefixCI as bs else false

/-- `PACKAGE_RE.match(line)`: the regex
`\s*package\s+(?P<package>[^;]+)\s*;\s*` under `re.I` and `re.match` (anchored
at the start only).  The greedy `[^;]+` swallows everything up to the first
`;`; when nothing but whitespace precedes the `;`, backtracking hands all but
one whitespace character of `\s+` to the group. -/
def parse_package_line (line : String) : Option String :=
  let l := line.toList.dropWhile (fun c => isSpaceChar c)
  if isPrefixCI ['p', 'a', 'c', 'k', 'a', 'g', 'e'] l then
    let rest := l.drop 7
    match rest with
    | [] => none
    | c :: _ =>
      if isSpaceChar c then
        let ws := rest.takeWhile (fun c => isSpaceChar c)
        let body := rest.dropWhile (fun c => isSpaceChar c)
        let grp := body.takeWhile (fun c => c ≠ ';')
        if body.dropWhile (fun c => c ≠ ';') = [] then none
        else if grp ≠ [] then some ⟨grp⟩
        else if 2 ≤ ws.length then some ⟨ws.drop 1⟩
        else none
      else none
  else none

/-- `INT_NAME_RE.match(path)`'s `int_name` group: the regex
`^.*\/res\/config\/(?P<int_name>.*).xml$`.  The leading greedy `.*` anchors at
the *last* occurrence of `/res/config/` that still leaves at least four
characters, and the unescaped `.` before `xml` matches any character, so the
path must merely end in `xml`. -/
def int_name_of (p : String) : Option String :=
  let l := p.toList
  if l.drop (l.length - 3) = ['x', 'm', 'l'] then
    match ((List.range l.length).filter
        (fun i =>
          isPrefixCL ['/', 'r', 'e', 's', '/', 'c', 'o', 'n', 'f', 'i', 'g', '/']
            (l.drop i) ∧ i + 16 ≤ l.length)).getLast? with
    | some i => some ⟨(l.take (l.length - 4)).drop (i + 12)⟩
    | none => none
  else none

/-! ## The environment: module index and filesystem/subprocess oracles -/

/-- `MODULE_CONFIG`. -/
def MODULE_CONFIG : String := "AndroidTest.xml"

/-- One value of the `module-info.json` dict: the `path` and `installed`
lists (a missing key is the empty list). -/
structure ModuleEntry where
  path : List String
  installed : List String
deriving DecidableEq, Repr

deriving instance DecidableEq for Except

/-- An observable filesystem / subprocess access. -/
inductive IOEvent where
  | findCmd (kind : REFERENCE_TYPE) (search_dir : String) (pattern : String)
  | readFile (path : String)
  | statPath (path : String)
  | walkUp (start_dir : String)
deriving DecidableEq, Repr

/-- The translator's ambient state: the pre-loaded module index and oracles
for every filesystem or subprocess access the strategies can make.
`find_out` gives the raw output of a `find` invocation, `file_lines` the
lines of a file opened for reading, `choice` the externally supplied
disambiguation index of `_extract_test_path`, `walk` the result of the
upward `_find_parent_module_dir` filesystem walk, and `path_strategy` the
post-split body of `_find_test_by_path` (pure filesystem resolution that no
claim depends on). -/
structure Env where
  root_dir : String
  module_info : List (String × ModuleEntry)
  integration_dirs : List String
  find_out : REFERENCE_TYPE → String → String → String
  file_lines : String → List String
  choice : Nat
  walk : String → Except Err String
  path_strategy : String → Finset String → Except Err (Option TestInfo)

/-- Python `self.module_info.get(name)` (dict lookup). -/
def dict_get (d : List (String × ModuleEntry)) (k : String) : Option ModuleEntry :=
  (d.find? (fun p => p.1 = k)).map Prod.snd

/-! ## Resolution strategies -/

/-- `CLITranslator._find_test_by_module_name`: in-memory index lookup, no
filesystem access (hence no `IOEvent`s in its type).  A module with a truthy
`installed` list but an empty `path` list would raise `IndexError` on
`info['path'][0]`. -/
def find_test_by_module_name (env : Env) (module_name : String) :
    Except Err (Option TestInfo) :=
  match dict_get env.module_info module_name with
  | none => .ok none
  | some info =>
    if info.installed ≠ [] then
      match info.path.head? with
      | some p =>
        .ok (some ⟨pathJoin p MODULE_CONFIG, some module_name, none, ∅⟩)
      | none => .error .indexError
    else .ok none

/-- `CLITranslator._find_class_file`: one `find` subprocess; a dotted class
name uses the `QUALIFIED_CLASS` wholename form with dots turned into
slashes, a plain one the `CLASS` filename form. -/
def find_class_file (env : Env) (class_name search_dir : String) :
    List IOEvent × Option String :=
  if '.' ∈ class_name.toList then
    let pat : String := ⟨class_name.toList.map (fun c => if c = '.' then '/' else c)⟩
    ([.findCmd .QUALIFIED_CLASS search_dir pat],
     extract_test_path (env.find_out .QUALIFIED_CLASS search_dir pat) env.choice)
  else
    ([.findCmd .CLASS search_dir class_name],
     extract_test_path (env.find_out .CLASS search_dir class_name) env.choice)

/-- `CLITranslator._get_fully_qualified_class_name`: read the class file, take
the first line with a `package` declaration, and append the file's stem;
no declaration raises `MissingPackageNameError`. -/
def get_fully_qualified_class_name (env : Env) (test_path : String) :
    List IOEvent × Except Err String :=
  ([.readFile test_path],
   match (env.file_lines test_path).findSome? parse_package_line with
   | some pkg => .ok (pkg ++ "." ++ splitext_stem (basename test_path))
   | none => .error (.missingPackageName test_path))

/-- `CLITranslator._get_module_name`: scan the index for an installed module
whose first `path` entry equals the given dir; an entry with an empty `path`
list raises `IndexError` when probed, exhaustion raises
`UnregisteredModuleError`. -/
def get_module_name_loop (rel : String) :
    List (String × ModuleEntry) → Except Err String
  | [] => .error .unregisteredModule
  | (name, info) :: rest =>
    match info.path.head? with
    | none => .error .indexError
    | some p =>
      if p = rel ∧ info.installed ≠ [] then .ok name
      else get_module_name_loop rel rest

/-- `CLITranslator._get_module_name` over the env's index. -/
def get_module_name (env : Env) (rel_module_path : String) : Except Err String :=
  get_module_name_loop rel_module_path env.module_info

/-- `CLITranslator._find_test_by_class_name`: split methods, search for the
class file (restricted to the known config's directory when given), recover
the fully qualified name from the file, and fall back to the upward module
walk and index lookup when module/config are unknown. -/
def find_test_by_class_name (env : Env) (s : String) (module_name : Option String)
    (rel_config : Option String) : List IOEvent × Except Err (Option TestInfo) :=
  match split_methods s with
  | .error e => ([], .error e)
  | .ok (class_name, methods) =>
    let search_dir :=
      if py_truthy rel_config then
        pathJoin env.root_dir (dirname (rel_config.getD ""))
      else env.root_dir
    let fc := find_class_file env class_name search_dir
    match fc.2 with
    | none => (fc.1, .ok none)
    | some test_path =>
      if test_path = "" then (fc.1, .ok none)
      else
        let fq := get_fully_qualified_class_name env test_path
        match fq.2 with
        | .error e => (fc.1 ++ fq.1, .error e)
        | .ok full_class_name =>
          let test_filter : TestFilter := ⟨full_class_name, methods⟩
          let walked : List IOEvent × Except Err String :=
            if py_truthy rel_config then ([], .ok (rel_config.getD ""))
            else
              ([.walkUp (dirname test_path)],
               (env.walk (dirname test_path)).map
                 (fun rel_module_dir => pathJoin rel_module_dir MODULE_CONFIG))
          match walked.2 with
          | .error e => (fc.1 ++ fq.1 ++ walked.1, .error e)
          | .ok rc =>
            let named : Except Err String :=
              if py_truthy module_name then .ok (module_name.getD "")
              else get_module_name env (dirname rc)
            match named with
            | .error e => (fc.1 ++ fq.1 ++ walked.1, .error e)
            | .ok mn =>
              (fc.1 ++ fq.1 ++ walked.1,
               .ok (some ⟨rc, some mn, none, {test_filter}⟩))

/-- `CLITranslator._find_test_by_module_and_class`: unguarded two-way split on
`:` (a `ValueError` escapes for any other arity), then MODULE resolution of
the left side and CLASS resolution of the right side scoped to that module. -/
def find_test_by_module_and_class (env : Env) (module_class : String) :
    List IOEvent × Except Err (Option TestInfo) :=
  match unpack2 module_class ':' with
  | .error e => ([], .error e)
  | .ok (module_name, class_name) =>
    match find_test_by_module_name env module_name with
    | .error e => ([], .error e)
    | .ok none => ([], .ok none)
    | .ok (some mi) =>
      find_test_by_class_name env class_name mi.module_name (some mi.rel_config)

/-- The per-root probe loop of `_find_test_by_integration_name`: roots are
probed in order; the first root whose `find` yields a (truthy) test file
decides the outcome — a name derived from the file's path that differs from
the requested name is rejected (`None`), and later roots are never probed. -/
def integration_loop (env : Env) (name : String) (filters : Finset TestFilter) :
    List String → List IOEvent × Except Err (Option TestInfo)
  | [] => ([], .ok none)
  | d :: rest =>
    let abs_path := pathJoin env.root_dir d
    let ev := IOEvent.findCmd .INTEGRATION abs_path name
    match extract_test_path (env.find_out .INTEGRATION abs_path name) env.choice with
    | none =>
      let r := integration_loop env name filters rest
      (ev :: r.1, r.2)
    | some test_file =>
      if test_file = "" then
        let r := integration_loop env name filters rest
        (ev :: r.1, r.2)
      else
        match int_name_of test_file with
        | none => ([ev], .ok none)
        | some int_name =>
          if int_name = name then
            ([ev],
             .ok (some ⟨relpath test_file env.root_dir, none, some name, filters⟩))
          else ([ev], .ok none)

/-- `CLITranslator._find_test_by_integration_name`: an optional
`:class[#methods]` suffix is split off (unguarded two-way split again) and
resolved to a fully qualified class filter first; then the integration roots
are probed via `integration_loop`. -/
def find_test_by_integration_name (env : Env) (name0 : String) :
    List IOEvent × Except Err (Option TestInfo) :=
  if ':' ∈ name0.toList then
    match unpack2 name0 ':' with
    | .error e => ([], .error e)
    | .ok (name, cls0) =>
      match split_methods cls0 with
      | .error e => ([], .error e)
      | .ok (class_name, methods) =>
        if '.' ∈ class_name.toList then
          integration_loop env name {⟨class_name, methods⟩} env.integration_dirs
        else
          let fc := find_class_file env class_name env.root_dir
          match fc.2 with
          | none => (fc.1, .ok none)
          | some p =>
            if p = "" then (fc.1, .ok none)
            else
              let fq := get_fully_qualified_class_name env p
              match fq.2 with
              | .error e => (fc.1 ++ fq.1, .error e)
              | .ok full =>
                let r := integration_loop env name {⟨full, methods⟩}
                  env.integration_dirs
                (fc.1 ++ fq.1 ++ r.1, r.2)
  else integration_loop env name0 ∅ env.integration_dirs

/-- `CLITranslator._find_test_by_path`: splits methods first; the remaining
body (realpath, existence checks, integration-dir containment, module
boundary walk) is pure filesystem resolution that no claim depends on, so it
is abstracted as the `path_strategy` oracle, with a `statPath` event
recording that the filesystem is touched. -/
def find_test_by_path (env : Env) (s : String) :
    List IOEvent × Except Err (Option TestInfo) :=
  match split_methods s with
  | .error e => ([], .error e)
  | .ok (p, methods) => ([.statPath p], env.path_strategy p methods)

/-- The `ref_type_to_func_map` dispatch: reference types without a strategy
(`PACKAGE`, `MODULE_PACKAGE`, `SUITE`) raise `KeyError` on lookup, which
`_get_test_info` catches and skips. -/
def strategy_of (env : Env) :
    REFERENCE_TYPE → Option (String → List IOEvent × Except Err (Option TestInfo))
  | .MODULE => some (fun s => ([], find_test_by_module_name env s))
  | .CLASS => some (fun s => find_test_by_class_name env s none none)
  | .MODULE_CLASS => some (find_test_by_module_and_class env)
  | .QUALIFIED_CLASS => some (fun s => find_test_by_class_name env s none none)
  | .FILE_PATH => some (find_test_by_path env)
  | .INTEGRATION => some (find_test_by_integration_name env)
  | _ => none

/-- `CLITranslator._get_test_info`: try each candidate reference type in
order; unsupported kinds are skipped, the first strategy returning a test
wins, and any raised exception other than the dispatch `KeyError`
propagates.  The accumulated event list records every I/O performed. -/
def get_test_info (env : Env) (test_name : String) :
    List REFERENCE_TYPE → List IOEvent × Except Err (Option TestInfo)
  | [] => ([], .ok none)
  | ref_type :: rest =>
    match strategy_of env ref_type with
    | none => get_test_info env test_name rest
    | some f =>
      match f test_name with
      | (ev, .error e) => (ev, .error e)
      | (ev, .ok (some ti)) => (ev, .ok (some ti))
      | (ev, .ok none) =>
        let r := get_test_info env test_name rest
        (ev ++ r.1, r.2)

/-! ## Filter merger (`_flatten_test_filters`, `_flatten_test_infos`)

`_flatten_test_filters` groups a frozenset of filters by `class_name` and
reduces each group with a loop that unions the method sets but resets to the
empty set and breaks as soon as a whole-class filter (empty `methods`) is
seen — so a group's merged method set is empty iff some member's is, and the
union of all members' otherwise, independently of iteration order.  That
order-independent reduction is `merged_methods`.

`_flatten_test_infos` sorts and groups a *set* of `TestInfo`s by
`module_name`; iteration order of the set is arbitrary (Python's sort is
stable), so the embedding takes an explicit `List` enumeration.  Within a
`some`-module group the loop keeps overwriting `rel_config` (taking the one
current at loop exit) and unions the filter sets, breaking with an empty set
when a whole-module descriptor (no filters) is seen; `module_group_reduce`
is that loop verbatim.  `None`-module (integration) descriptors pass through
unchanged. -/

/-- Merged method set for the class-`c` group of `filters`. -/
def merged_methods (filters : Finset TestFilter) (c : String) : Finset String :=
  if filters.filter (fun f => f.class_name = c ∧ f.methods = ∅) = ∅ then
    (filters.filter (fun f => f.class_name = c)).biUnion TestFilter.methods
  else ∅

/-- `CLITranslator._flatten_test_filters`. -/
def flatten_test_filters (filters : Finset TestFilter) : Finset TestFilter :=
  (filters.image TestFilter.class_name).image
    (fun c => ⟨c, merged_methods filters c⟩)

/-- The per-module reduction loop of `_flatten_test_infos`: `rel_config` is
overwritten by each descriptor in turn and the filter sets are unioned; a
descriptor with no filters forces the empty filter set and breaks. -/
def module_group_reduce (rc : String) (fs : Finset TestFilter) :
    List TestInfo → String × Finset TestFilter
  | [] => (rc, fs)
  | ti :: rest =>
    if ti.filters = ∅ then (ti.rel_config, ∅)
    else module_group_reduce ti.rel_config (fs ∪ ti.filters) rest

/-- The merged descriptor `_flatten_test_infos` adds for module `md` (the
loop's initial `rel_config = None` is the unused `""`, since every group is
nonempty). -/
def merged_info (infos : List TestInfo) (md : String) : TestInfo :=
  ⟨(module_group_reduce "" ∅
      (infos.filter (fun ti => ti.module_name = some md))).1,
   some md, none,
   flatten_test_filters
     (module_group_reduce "" ∅
       (infos.filter (fun ti => ti.module_name = some md))).2⟩

/-- One group's contribution to the `_flatten_test_infos` result set. -/
def info_step (infos : List TestInfo) (m : Option String) (acc : Finset TestInfo) :
    Finset TestInfo :=
  match m with
  | none => (infos.filter (fun ti => ti.module_name = none)).toFinset ∪ acc
  | some md => insert (merged_info infos md) acc

/-- `CLITranslator._flatten_test_infos` over an enumeration of the input set:
group by `module_name` (the distinct keys of the stable sort-and-group),
pass `None`-module descriptors through, merge each module group. -/
def flatten_test_infos (infos : List TestInfo) : Finset TestInfo :=
  ((infos.map TestInfo.module_name).dedup).foldr (info_step infos) ∅

/-- The `rel_config` the module-group loop is left with: that of the last
descriptor processed. -/
def last_rc (rc : String) : List TestInfo → String
  | [] => rc
  | ti :: rest => last_rc ti.rel_config rest

/-- Union of the filter sets of a list of descriptors. -/
def union_filters (l : List TestInfo) : Finset TestFilter :=
  l.foldr (fun ti acc => ti.filters ∪ acc) ∅

/-! ## Concrete environments used by counterexamples and witnesses -/

/-- An environment whose module index is empty, with a single integration
root and every `find` invocation coming back empty. -/
def envEmpty : Env where
  root_dir := "/src"
  module_info := []
  integration_dirs := ["tools/tradefederation"]
  find_out := fun _ _ _ => ""
  file_lines := fun _ => []
  choice := 0
  walk := fun _ => .error .testWithNoModule
  path_strategy := fun _ _ => .ok none

/-- An environment holding one installed module `Mod` at `a/b`, with one
integration root whose probes find nothing. -/
def envMod : Env where
  root_dir := "/src"
  module_info := [("Mod", ⟨["a/b"], ["out/Mod.apk"]⟩)]
  integration_dirs := ["tools/tradefederation"]
  find_out := fun _ _ _ => ""
  file_lines := fun _ => []
  choice := 0
  walk := fun _ => .error .testWithNoModule
  path_strategy := fun _ _ => .ok none

/-- An environment for the round-trip scenario: module `Module` installed at
`mdir`, the class probe finding the single file
`/src/mdir/src/ClassName.java`, whose package line declares
`fully.qualified`. -/
def envRoundTrip : Env where
  root_dir := "/src"
  module_info := [("Module", ⟨["mdir"], ["out/Module.apk"]⟩)]
  integration_dirs := ["tools/tradefederation"]
  find_out := fun _ _ _ => "/src/mdir/src/ClassName.java"
  file_lines := fun _ => ["package fully.qualified;"]
  choice := 0
  walk := fun _ => .error .testWithNoModule
  path_strategy := fun _ _ => .ok none

/-- An environment with three integration roots in which only the second
probe finds a config file, at a path whose derived integration name is
`suite/y`. -/
def envIntRoots : Env where
  root_dir := "/src"
  module_info := []
  integration_dirs := ["t1", "t2", "t3"]
  find_out := fun _ dir _ =>
    if dir = "/src/t2" then "/src/t2/res/config/suite/y.xml" else ""
  file_lines := fun _ => []
  choice := 0
  walk := fun _ => .error .testWithNoModule
  path_strategy := fun _ _ => .ok none

/-! ## Helper lemmas: string splitting -/

theorem splitOnChar_ne_nil (c : Char) (l : List Char) : splitOnChar c l ≠ [] := by
  induction l with
  | nil => simp [splitOnChar]
  | cons x xs ih =>
    simp only [splitOnChar]
    split
    · simp
    · cases h : splitOnChar c xs with
      | nil => simp
      | cons h' t => simp [h]

theorem splitOnChar_length (c : Char) (l : List Char) :
    (splitOnChar c l).length = countChar c l + 1 := by
  induction l with
  | nil => simp [splitOnChar, countChar]
  | cons x xs ih =>
    simp only [splitOnChar, countChar]
    split
    · simp only [List.length_cons, ih]; omega
    · cases h : splitOnChar c xs with
      | nil => exact absurd h (splitOnChar_ne_nil c xs)
      | cons h' t =>
        rw [h] at ih
        simpa using ih

theorem py_split_length (s : String) (c : Char) :
    (py_split s c).length = countChar c s.toList + 1 := by
  simp [py_split, splitOnChar_length]

theorem mem_of_countChar_pos {c : Char} {l : List Char} (h : 0 < countChar c l) :
    c ∈ l := by
  induction l with
  | nil => simp [countChar] at h
  | cons x xs ih =>
    simp only [countChar] at h
    by_cases hx : x = c
    · subst hx; exact List.mem_cons_self x xs
    · simp [hx] at h
      exact List.mem_cons_of_mem _ (ih h)

theorem mem_of_take_one {c : Char} {l : List Char} (h : l.take 1 = [c]) : c ∈ l := by
  cases l with
  | nil => simp at h
  | cons x xs =>
    simp [List.take] at h
    simp [h]

theorem mem_of_isPrefixCL_cons {c : Char} {p l : List Char}
    (h : isPrefixCL (c :: p) l = true) : c ∈ l := by
  cases l with
  | nil => simp [isPrefixCL] at h
  | cons x xs =>
    simp only [isPrefixCL] at h
    split at h
    · next he => subst he; exact List.mem_cons_self c xs
    · simp at h

theorem mem_of_containsSub_cons {c : Char} {p l : List Char}
    (h : containsSub (c :: p) l = true) : c ∈ l := by
  induction l with
  | nil => simp [containsSub, isPrefixCL] at h
  | cons x xs ih =>
    simp only [containsSub, Bool.or_eq_true] at h
    rcases h with h | h
    · exact mem_of_isPrefixCL_cons h
    · exact List.mem_cons_of_mem _ (ih h)

theorem split_methods_error_iff (s : String) :
    split_methods s = .error .tooManyMethods ↔ 2 ≤ countChar '#' s.toList := by
  have hlen := py_split_length s '#'
  have hne : py_split s '#' ≠ [] := by
    simp [py_split]
    exact splitOnChar_ne_nil '#' s.toList
  unfold split_methods
  rcases h : py_split s '#' with _ | ⟨a, _ | ⟨b, _ | ⟨c, t⟩⟩⟩
  · exact absurd h hne
  · rw [h] at hlen; simp only [List.length_cons, List.length_nil] at hlen
    simp only [reduceCtorEq, false_iff]
    omega
  · rw [h] at hlen; simp only [List.length_cons, List.length_nil] at hlen
    simp only [reduceCtorEq, false_iff]
    omega
  · rw [h] at hlen; simp only [List.length_cons] at hlen
    simp only [true_iff]
    omega

theorem unpack2_error_of_two_colons {s : String} (h : 2 ≤ countChar ':' s.toList) :
    unpack2 s ':' = .error .valueError := by
  have hlen := py_split_length s ':'
  unfold unpack2
  rcases hs : py_split s ':' with _ | ⟨a, _ | ⟨b, _ | ⟨c, t⟩⟩⟩
  · rfl
  · rfl
  · rw [hs] at hlen; simp only [List.length_cons, List.length_nil] at hlen
    omega
  · rfl

/-! ## Helper lemmas: the class-level filter merge -/

theorem flatten_image_class (F : Finset TestFilter) :
    (flatten_test_filters F).image TestFilter.class_name
      = F.image TestFilter.class_name := by
  unfold flatten_test_filters
  have hcomp : (TestFilter.class_name ∘
      fun c => (⟨c, merged_methods F c⟩ : TestFilter)) = id := rfl
  rw [Finset.image_image, hcomp, Finset.image_id]

theorem mem_flatten_test_filters {F : Finset TestFilter} {g : TestFilter} :
    g ∈ flatten_test_filters F ↔
      ∃ c ∈ F.image TestFilter.class_name, g = ⟨c, merged_methods F c⟩ := by
  unfold flatten_test_filters
  simp [eq_comm]

theorem flatten_filter_class {F : Finset TestFilter} {c : String}
    (hc : c ∈ F.image TestFilter.class_name) :
    (flatten_test_filters F).filter (fun g => g.class_name = c)
      = {(⟨c, merged_methods F c⟩ : TestFilter)} := by
  ext g
  simp only [Finset.mem_filter, mem_flatten_test_filters, Finset.mem_singleton]
  constructor
  · rintro ⟨⟨c', _, rfl⟩, hcls⟩
    cases hcls
    rfl
  · rintro rfl
    exact ⟨⟨c, hc, rfl⟩, rfl⟩

theorem merged_methods_flatten {F : Finset TestFilter} {c : String}
    (hc : c ∈ F.image TestFilter.class_name) :
    merged_methods (flatten_test_filters F) c = merged_methods F c := by
  set mF := merged_methods F c with hmF
  have hfil : (flatten_test_filters F).filter (fun g => g.class_name = c)
      = {(⟨c, mF⟩ : TestFilter)} := flatten_filter_class hc
  have hfil2 : (flatten_test_filters F).filter
      (fun f => f.class_name = c ∧ f.methods = ∅)
      = ({(⟨c, mF⟩ : TestFilter)} : Finset TestFilter).filter
          (fun f => f.methods = ∅) := by
    rw [← hfil, Finset.filter_filter]
  by_cases hm : mF = ∅
  · have hne : ¬((flatten_test_filters F).filter
        (fun f => f.class_name = c ∧ f.methods = ∅) = ∅) := by
      rw [hfil2, Finset.filter_singleton, if_pos hm]
      simp
    unfold merged_methods
    rw [if_neg hne, hm]
  · have heq : (flatten_test_filters F).filter
        (fun f => f.class_name = c ∧ f.methods = ∅) = ∅ := by
      rw [hfil2, Finset.filter_singleton, if_neg hm]
    unfold merged_methods
    rw [if_pos heq, hfil, Finset.singleton_biUnion]

theorem flatten_test_filters_idem (F : Finset TestFilter) :
    flatten_test_filters (flatten_test_filters F) = flatten_test_filters F := by
  have h1 : flatten_test_filters (flatten_test_filters F)
      = ((flatten_test_filters F).image TestFilter.class_name).image
          (fun c => ⟨c, merged_methods (flatten_test_filters F) c⟩) := rfl
  rw [h1, flatten_image_class]
  calc (F.image TestFilter.class_name).image
        (fun c => (⟨c, merged_methods (flatten_test_filters F) c⟩ : TestFilter))
      = (F.image TestFilter.class_name).image
          (fun c => (⟨c, merged_methods F c⟩ : TestFilter)) :=
        Finset.image_congr
          (fun c hc => by
            rw [merged_methods_flatten (Finset.mem_coe.mp hc)])
    _ = flatten_test_filters F := rfl

theorem flatten_test_filters_empty : flatten_test_filters ∅ = ∅ := by
  simp [flatten_test_filters]

/-! ## Helper lemmas: the module-level descriptor merge -/

theorem union_filters_cons (ti : TestInfo) (l : List TestInfo) :
    union_filters (ti :: l) = ti.filters ∪ union_filters l := rfl

theorem module_group_reduce_break {l : List TestInfo}
    (h : ∃ ti ∈ l, ti.filters = ∅) (rc : String) (fs : Finset TestFilter) :
    ∃ rc', module_group_reduce rc fs l = (rc', ∅) := by
  induction l generalizing rc fs with
  | nil => simp at h
  | cons ti rest ih =>
    by_cases h0 : ti.filters = ∅
    · exact ⟨ti.rel_config, by simp [module_group_reduce, h0]⟩
    · rcases h with ⟨t, ht, hemp⟩
      rcases List.mem_cons.mp ht with rfl | ht'
      · exact absurd hemp h0
      · simp only [module_group_reduce, if_neg h0]
        exact ih ⟨t, ht', hemp⟩ _ _

theorem module_group_reduce_no_break {l : List TestInfo}
    (h : ∀ ti ∈ l, ti.filters ≠ ∅) (rc : String) (fs : Finset TestFilter) :
    module_group_reduce rc fs l = (last_rc rc l, fs ∪ union_filters l) := by
  induction l generalizing rc fs with
  | nil => simp [module_group_reduce, last_rc, union_filters]
  | cons ti rest ih =>
    have h0 : ti.filters ≠ ∅ := h ti (List.mem_cons_self ti rest)
    simp only [module_group_reduce, if_neg h0]
    rw [ih (fun t ht => h t (List.mem_cons_of_mem _ ht))]
    simp [last_rc, union_filters_cons, Finset.union_assoc]

theorem module_group_reduce_cons (rc : String) (fs : Finset TestFilter)
    (ti : TestInfo) (rest : List TestInfo) :
    module_group_reduce rc fs (ti :: rest)
      = if ti.filters = ∅ then (ti.rel_config, (∅ : Finset TestFilter))
        else module_group_reduce ti.rel_config (fs ∪ ti.filters) rest := rfl

theorem module_group_reduce_const {d : TestInfo} :
    ∀ (rest : List TestInfo), (∀ z ∈ rest, z = d) →
      ∀ (rc : String) (fs : Finset TestFilter),
        module_group_reduce rc fs (d :: rest)
          = if d.filters = ∅ then (d.rel_config, (∅ : Finset TestFilter))
            else (d.rel_config, fs ∪ d.filters)
  | [], _, rc, fs => by
    rw [module_group_reduce_cons]
    by_cases h0 : d.filters = ∅
    · rw [if_pos h0, if_pos h0]
    · rw [if_neg h0, if_neg h0]
      rfl
  | z :: rest', h, rc, fs => by
    have hz : z = d := h z (List.mem_cons_self z rest')
    have h' : ∀ w ∈ rest', w = d := fun w hw => h w (List.mem_cons_of_mem _ hw)
    rw [module_group_reduce_cons]
    by_cases h0 : d.filters = ∅
    · rw [if_pos h0, if_pos h0]
    · rw [if_neg h0, if_neg h0, hz,
        module_group_reduce_const rest' h' d.rel_config (fs ∪ d.filters),
        if_neg h0, Finset.union_assoc, Finset.union_self]

theorem mem_foldr_info_step (infos : List TestInfo) (keys : List (Option String))
    (acc : Finset TestInfo) (x : TestInfo) :
    x ∈ keys.foldr (info_step infos) acc ↔
      (none ∈ keys ∧ x ∈ infos ∧ x.module_name = none)
      ∨ (∃ md, some md ∈ keys ∧ x = merged_info infos md)
      ∨ x ∈ acc := by
  induction keys with
  | nil => simp
  | cons k ks ih =>
    cases k with
    | none =>
      constructor
      · intro hx
        rcases Finset.mem_union.mp hx with hx | hx
        · have h2 := List.mem_filter.mp (List.mem_toFinset.mp hx)
          exact Or.inl ⟨List.mem_cons_self _ _, h2.1, of_decide_eq_true h2.2⟩
        · rcases ih.mp hx with ⟨hn, h1, h2⟩ | ⟨md, hmd, hx'⟩ | hx'
          · exact Or.inl ⟨List.mem_cons_of_mem _ hn, h1, h2⟩
          · exact Or.inr (Or.inl ⟨md, List.mem_cons_of_mem _ hmd, hx'⟩)
          · exact Or.inr (Or.inr hx')
      · rintro (⟨-, h1, h2⟩ | ⟨md, hmd, hx'⟩ | hx')
        · exact Finset.mem_union.mpr (Or.inl (List.mem_toFinset.mpr
            (List.mem_filter.mpr ⟨h1, decide_eq_true h2⟩)))
        · rcases List.mem_cons.mp hmd with heq | hmem
          · exact absurd heq (by simp)
          · exact Finset.mem_union.mpr
              (Or.inr (ih.mpr (Or.inr (Or.inl ⟨md, hmem, hx'⟩))))
        · exact Finset.mem_union.mpr (Or.inr (ih.mpr (Or.inr (Or.inr hx'))))
    | some md0 =>
      constructor
      · intro hx
        rcases Finset.mem_insert.mp hx with hx | hx
        · exact Or.inr (Or.inl ⟨md0, List.mem_cons_self _ _, hx⟩)
        · rcases ih.mp hx with ⟨hn, h1, h2⟩ | ⟨md, hmd, hx'⟩ | hx'
          · exact Or.inl ⟨List.mem_cons_of_mem _ hn, h1, h2⟩
          · exact Or.inr (Or.inl ⟨md, List.mem_cons_of_mem _ hmd, hx'⟩)
          · exact Or.inr (Or.inr hx')
      · rintro (⟨hn, h1, h2⟩ | ⟨md, hmd, hx'⟩ | hx')
        · rcases List.mem_cons.mp hn with heq | hmem
          · exact absurd heq (by simp)
          · exact Finset.mem_insert.mpr (Or.inr (ih.mpr (Or.inl ⟨hmem, h1, h2⟩)))
        · rcases List.mem_cons.mp hmd with heq | hmem
          · have hmd0 : md = md0 := Option.some.inj heq
            subst hmd0
            exact Finset.mem_insert.mpr (Or.inl hx')
          · exact Finset.mem_insert.mpr
              (Or.inr (ih.mpr (Or.inr (Or.inl ⟨md, hmem, hx'⟩))))
        · exact Finset.mem_insert.mpr (Or.inr (ih.mpr (Or.inr (Or.inr hx'))))

theorem dedup_const {α : Type _} [DecidableEq α] :
    ∀ (l : List α) (a : α), l ≠ [] → (∀ x ∈ l, x = a) → l.dedup = [a]
  | [], _, hne, _ => absurd rfl hne
  | [x], a, _, h => by
    rw [h x (List.mem_cons_self x [])]
    simp
  | x :: y :: t, a, _, h => by
    have hx : x = a := h x (List.mem_cons_self x (y :: t))
    have hrest : (y :: t).dedup = [a] :=
      dedup_const (y :: t) a (by simp)
        (fun z hz => h z (List.mem_cons_of_mem _ hz))
    have hxmem : x ∈ y :: t := by
      rw [hx]
      exact List.mem_dedup.mp (hrest ▸ List.mem_cons_self a [])
    rw [List.dedup_cons_of_mem hxmem, hrest]

theorem merged_info_const {l : List TestInfo} {md : String} {d : TestInfo}
    {grest : List TestInfo}
    (hgrp : l.filter (fun ti => ti.module_name = some md) = d :: grest)
    (hall : ∀ z ∈ grest, z = d) :
    merged_info l md
      = ⟨d.rel_config, some md, none,
         if d.filters = ∅ then ∅ else flatten_test_filters d.filters⟩ := by
  have hred := module_group_reduce_const grest hall "" ∅
  unfold merged_info
  rw [hgrp, hred]
  by_cases hc : d.filters = ∅
  · rw [if_pos hc]
    simp [flatten_test_filters_empty, hc]
  · rw [if_neg hc]
    simp [Finset.empty_union, hc]

theorem mem_flatten_test_infos {infos : List TestInfo} {x : TestInfo} :
    x ∈ flatten_test_infos infos ↔
      (x ∈ infos ∧ x.module_name = none)
      ∨ ∃ md, some md ∈ infos.map TestInfo.module_name
          ∧ x = merged_info infos md := by
  unfold flatten_test_infos
  rw [mem_foldr_info_step]
  simp only [Finset.not_mem_empty, or_false, List.mem_dedup]
  constructor
  · rintro (⟨-, hx, hm⟩ | ⟨md, hmd, hx⟩)
    · exact Or.inl ⟨hx, hm⟩
    · exact Or.inr ⟨md, hmd, hx⟩
  · rintro (⟨hx, hm⟩ | ⟨md, hmd, hx⟩)
    · exact Or.inl ⟨List.mem_map.mpr ⟨x, hx, hm⟩, hx, hm⟩
    · exact Or.inr ⟨md, hmd, hx⟩

/-! ## Helper lemmas: the integration-root probe loop -/

theorem integration_loop_no_match {env : Env} {name : String}
    (fs : Finset TestFilter) :
    ∀ dirs : List String,
      (∀ d ∈ dirs,
        extract_test_path
          (env.find_out .INTEGRATION (pathJoin env.root_dir d) name)
          env.choice = none) →
      integration_loop env name fs dirs
        = (dirs.map (fun d =>
            IOEvent.findCmd .INTEGRATION (pathJoin env.root_dir d) name),
           .ok none)
  | [], _ => rfl
  | d :: rest, h => by
    have hd := h d (List.mem_cons_self d rest)
    have hrest := integration_loop_no_match fs rest
      (fun d' hd' => h d' (List.mem_cons_of_mem _ hd'))
    simp only [integration_loop, hd, hrest, List.map_cons]

theorem integration_loop_first_match {env : Env} {name f : String}
    {d : String} {ds₂ : List String}
    (fs : Finset TestFilter)
    (hd : extract_test_path
        (env.find_out .INTEGRATION (pathJoin env.root_dir d) name)
        env.choice = some f)
    (hf : f ≠ "") :
    ∀ ds₁ : List String,
      (∀ d' ∈ ds₁,
        extract_test_path
          (env.find_out .INTEGRATION (pathJoin env.root_dir d') name)
          env.choice = none) →
      integration_loop env name fs (ds₁ ++ d :: ds₂)
        = ((ds₁ ++ [d]).map (fun d' =>
            IOEvent.findCmd .INTEGRATION (pathJoin env.root_dir d') name),
           match int_name_of f with
           | none => .ok none
           | some n =>
             if n = name then
               .ok (some ⟨relpath f env.root_dir, none, some name, fs⟩)
             else .ok none)
  | [], _ => by
    simp only [List.nil_append, integration_loop, hd, if_neg hf, List.map_cons,
      List.map_nil]
    cases hni : int_name_of f with
    | none => rfl
    | some n => by_cases hn : n = name <;> simp [hn]
  | d' :: ds₁, h => by
    have hd' := h d' (List.mem_cons_self d' ds₁)
    have hrest := @integration_loop_first_match env name f d ds₂ fs hd hf ds₁
      (fun x hx => h x (List.mem_cons_of_mem _ hx))
    simp only [List.cons_append, integration_loop, hd', List.append_eq, hrest,
      List.map_cons]

end Atest

/-- C1: for every identifier string, `classify` (the source function
`_get_test_reference_types`) returns exactly the ordered candidate list given
by the lexical rules of spec §4.1 — it is a pure function of the string with no
I/O — and in particular `"../foo"` classifies as `[FILE_PATH]` only, `"a/b"` as
`[FILE_PATH, INTEGRATION]`, and `"a:b.c"` as
`[MODULE_CLASS, MODULE_PACKAGE, INTEGRATION]`. -/
theorem c1_classifier_matches_spec :
    (∀ ref : String,
      Atest.get_test_reference_types ref = Atest.classify_spec ref)
    ∧ Atest.get_test_reference_types "../foo" = [Atest.REFERENCE_TYPE.FILE_PATH]
    ∧ Atest.get_test_reference_types "a/b" =
        [Atest.REFERENCE_TYPE.FILE_PATH, Atest.REFERENCE_TYPE.INTEGRATION]
    ∧ Atest.get_test_reference_types "a:b.c" =
        [Atest.REFERENCE_TYPE.MODULE_CLASS, Atest.REFERENCE_TYPE.MODULE_PACKAGE,
         Atest.REFERENCE_TYPE.INTEGRATION] := by
  refine ⟨fun ref => rfl, by decide, by decide, by decide⟩

/-- C2: the two-level filter/descriptor merge is idempotent.  Class level:
`_flatten_test_filters` applied to its own output is the identity.  Module
level: `_flatten_test_infos` applied to any enumeration of an
already-merged descriptor set returns that same set. -/
theorem c2_merge_idempotent :
    (∀ F : Finset Atest.TestFilter,
      Atest.flatten_test_filters (Atest.flatten_test_filters F)
        = Atest.flatten_test_filters F)
    ∧ (∀ (infos l : List Atest.TestInfo),
        l.toFinset = Atest.flatten_test_infos infos →
        Atest.flatten_test_infos l = Atest.flatten_test_infos infos) := by
  refine ⟨Atest.flatten_test_filters_idem, ?_⟩
  intro infos l hl
  have hin : ∀ y : Atest.TestInfo,
      y ∈ l ↔ y ∈ Atest.flatten_test_infos infos := by
    intro y
    rw [← hl, List.mem_toFinset]
  have hmodG : ∀ y : Atest.TestInfo, ∀ md : String,
      y ∈ Atest.flatten_test_infos infos → y.module_name = some md →
      y = Atest.merged_info infos md
        ∧ some md ∈ infos.map Atest.TestInfo.module_name := by
    intro y md hyG hym
    rcases Atest.mem_flatten_test_infos.mp hyG with ⟨-, hnone⟩ | ⟨md', hmd', hyeq⟩
    · rw [hym] at hnone; cases hnone
    · have hmd2 : (Atest.merged_info infos md').module_name = some md :=
        hyeq ▸ hym
      have hmdeq : md' = md := Option.some.inj hmd2
      subst hmdeq
      exact ⟨hyeq, hmd'⟩
  have hkey : ∀ md : String, some md ∈ l.map Atest.TestInfo.module_name →
      Atest.merged_info l md = Atest.merged_info infos md
        ∧ some md ∈ infos.map Atest.TestInfo.module_name := by
    intro md hmd
    obtain ⟨t0, ht0l, ht0m⟩ := List.mem_map.mp hmd
    obtain ⟨-, hkeymem⟩ := hmodG t0 md ((hin t0).mp ht0l) ht0m
    have halld : ∀ z ∈ l.filter (fun ti => ti.module_name = some md),
        z = Atest.merged_info infos md := by
      intro z hz
      have hz' := List.mem_filter.mp hz
      exact (hmodG z md ((hin z).mp hz'.1) (of_decide_eq_true hz'.2)).1
    have ht0f : t0 ∈ l.filter (fun ti => ti.module_name = some md) :=
      List.mem_filter.mpr ⟨ht0l, decide_eq_true ht0m⟩
    obtain ⟨g0, grest, hgrp⟩ : ∃ g0 grest,
        l.filter (fun ti => ti.module_name = some md) = g0 :: grest := by
      cases hfl : l.filter (fun ti => ti.module_name = some md) with
      | nil => rw [hfl] at ht0f; cases ht0f
      | cons a b => exact ⟨a, b, rfl⟩
    have hg0 : g0 = Atest.merged_info infos md := by
      apply halld
      rw [hgrp]
      exact List.mem_cons_self _ _
    have hgrp_all : ∀ z ∈ grest, z = Atest.merged_info infos md := by
      intro z hz
      apply halld
      rw [hgrp]
      exact List.mem_cons_of_mem _ hz
    refine ⟨?_, hkeymem⟩
    have hgrp' : l.filter (fun ti => ti.module_name = some md)
        = Atest.merged_info infos md :: grest := by rw [hgrp, hg0]
    have hval := Atest.merged_info_const hgrp' hgrp_all
    by_cases hc : (Atest.merged_info infos md).filters = ∅
    · rw [hval, if_pos hc, ← hc]
      rfl
    · have hfix : Atest.flatten_test_filters (Atest.merged_info infos md).filters
          = (Atest.merged_info infos md).filters :=
        Atest.flatten_test_filters_idem _
      rw [hval, if_neg hc, hfix]
      rfl
  ext x
  rw [Atest.mem_flatten_test_infos]
  constructor
  · rintro (⟨hxl, hxm⟩ | ⟨md, hmd, rfl⟩)
    · exact (hin x).mp hxl
    · obtain ⟨heq, hkey2⟩ := hkey md hmd
      rw [heq]
      exact Atest.mem_flatten_test_infos.mpr (Or.inr ⟨md, hkey2, rfl⟩)
  · intro hxG
    rcases hx : x.module_name with _ | md
    · exact Or.inl ⟨(hin x).mpr hxG, rfl⟩
    · have hxl : x ∈ l := (hin x).mpr hxG
      have hmd : some md ∈ l.map Atest.TestInfo.module_name :=
        List.mem_map.mpr ⟨x, hxl, hx⟩
      obtain ⟨heq, -⟩ := hkey md hmd
      obtain ⟨hxeq, -⟩ := hmodG x md hxG hx
      exact Or.inr ⟨md, hmd, hxeq.trans heq.symm⟩

/-- C2 witness: a concrete already-merged descriptor set (obtained by merging
a two-element enumeration with a duplicate) is a fixed point of the merge. -/
theorem c2_merge_idempotent_witness :
    Atest.flatten_test_infos
        [⟨"cfg", some "M", none, ({⟨"A", {"m1"}⟩} : Finset Atest.TestFilter)⟩]
      = Atest.flatten_test_infos
        [⟨"cfg", some "M", none, ({⟨"A", {"m1"}⟩} : Finset Atest.TestFilter)⟩,
         ⟨"cfg", some "M", none, ({⟨"A", {"m1"}⟩} : Finset Atest.TestFilter)⟩] :=
  c2_merge_idempotent.2 _ _ (by decide)

/-- C3: class-level filter merge — for any nonempty set of filters sharing
one class name, if any member has an empty method set the merge is the single
whole-class filter, otherwise it is one filter carrying the union of the
method sets; in particular merging `{(A,{})}` with `{(A,{m1})}` yields
`{(A,{})}` and merging `{(A,{m1})}` with `{(A,{m2})}` yields
`{(A,{m1,m2})}`. -/
theorem c3_class_level_merge :
    (∀ (F : Finset Atest.TestFilter) (c : String),
      F.Nonempty → (∀ f ∈ F, f.class_name = c) →
      ((∃ f ∈ F, f.methods = ∅) →
        Atest.flatten_test_filters F = {⟨c, ∅⟩})
      ∧ ((∀ f ∈ F, f.methods ≠ ∅) →
        Atest.flatten_test_filters F
          = {⟨c, F.biUnion Atest.TestFilter.methods⟩}))
    ∧ Atest.flatten_test_filters {⟨"A", ∅⟩, ⟨"A", {"m1"}⟩} = {⟨"A", ∅⟩}
    ∧ Atest.flatten_test_filters {⟨"A", {"m1"}⟩, ⟨"A", {"m2"}⟩}
        = {⟨"A", {"m1", "m2"}⟩} := by
  refine ⟨?_, by decide, by decide⟩
  intro F c hne hall
  have himg : F.image Atest.TestFilter.class_name = {c} := by
    ext b
    simp only [Finset.mem_image, Finset.mem_singleton]
    constructor
    · rintro ⟨f, hf, rfl⟩
      exact hall f hf
    · rintro rfl
      obtain ⟨f, hf⟩ := hne
      exact ⟨f, hf, hall f hf⟩
  have hflat : Atest.flatten_test_filters F
      = {⟨c, Atest.merged_methods F c⟩} := by
    unfold Atest.flatten_test_filters
    rw [himg, Finset.image_singleton]
  constructor
  · rintro ⟨f, hf, hfm⟩
    have hcond : F.filter (fun f => f.class_name = c ∧ f.methods = ∅) ≠ ∅ :=
      Finset.ne_empty_of_mem (Finset.mem_filter.mpr ⟨hf, hall f hf, hfm⟩)
    have hmm : Atest.merged_methods F c = ∅ := by
      unfold Atest.merged_methods
      rw [if_neg hcond]
    rw [hflat, hmm]
  · intro hnon
    have hcond : F.filter (fun f => f.class_name = c ∧ f.methods = ∅) = ∅ := by
      rw [Finset.filter_eq_empty_iff]
      rintro f hf ⟨-, hfm⟩
      exact hnon f hf hfm
    have hfltr : F.filter (fun f => f.class_name = c) = F :=
      Finset.filter_true_of_mem (fun f hf => hall f hf)
    have hmm : Atest.merged_methods F c = F.biUnion Atest.TestFilter.methods := by
      unfold Atest.merged_methods
      rw [if_pos hcond, hfltr]
    rw [hflat, hmm]

/-- C3 witness: the general clause applied to a concrete two-element group
with a whole-class member. -/
theorem c3_class_level_merge_witness :
    Atest.flatten_test_filters {⟨"B", ∅⟩, ⟨"B", {"x"}⟩}
      = {(⟨"B", ∅⟩ : Atest.TestFilter)} :=
  (c3_class_level_merge.1 {⟨"B", ∅⟩, ⟨"B", {"x"}⟩} "B"
    (by decide) (by decide)).1 (by decide)

/-- C4: module-level descriptor merge — a nonempty group of descriptors
sharing module name `m` merges to a single descriptor whose filter set is
empty as soon as one group member selects the whole module, and otherwise is
the class-level merge of the union of the group's filters; descriptors with
no module name always pass through the merge unchanged. -/
theorem c4_module_level_merge :
    (∀ (l : List Atest.TestInfo) (m : String),
      l ≠ [] → (∀ ti ∈ l, ti.module_name = some m) →
      ((∃ ti ∈ l, ti.filters = ∅) →
        ∃ rc, Atest.flatten_test_infos l = {⟨rc, some m, none, ∅⟩})
      ∧ ((∀ ti ∈ l, ti.filters ≠ ∅) →
        Atest.flatten_test_infos l
          = {⟨Atest.last_rc "" l, some m, none,
              Atest.flatten_test_filters (Atest.union_filters l)⟩}))
    ∧ (∀ l : List Atest.TestInfo,
        (Atest.flatten_test_infos l).filter (fun x => x.module_name = none)
          = (l.filter (fun ti => ti.module_name = none)).toFinset) := by
  constructor
  · intro l m hne hall
    have hconst : ∀ x ∈ l.map Atest.TestInfo.module_name, x = some m := by
      rintro x hx
      obtain ⟨ti, hti, rfl⟩ := List.mem_map.mp hx
      exact hall ti hti
    have hmapne : l.map Atest.TestInfo.module_name ≠ [] := by
      simp [hne]
    have hded : (l.map Atest.TestInfo.module_name).dedup = [some m] :=
      Atest.dedup_const _ _ hmapne hconst
    have hflat : Atest.flatten_test_infos l = {Atest.merged_info l m} := by
      unfold Atest.flatten_test_infos
      rw [hded]
      simp [Atest.info_step]
    have hfltr : l.filter (fun ti => ti.module_name = some m) = l :=
      List.filter_eq_self.mpr (fun ti hti => decide_eq_true (hall ti hti))
    constructor
    · intro hex
      obtain ⟨rc', hred⟩ := Atest.module_group_reduce_break hex "" ∅
      refine ⟨rc', ?_⟩
      rw [hflat]
      have : Atest.merged_info l m = ⟨rc', some m, none, ∅⟩ := by
        unfold Atest.merged_info
        rw [hfltr, hred]
        simp [Atest.flatten_test_filters_empty]
      rw [this]
    · intro hnon
      rw [hflat]
      have : Atest.merged_info l m
          = ⟨Atest.last_rc "" l, some m, none,
             Atest.flatten_test_filters (Atest.union_filters l)⟩ := by
        unfold Atest.merged_info
        rw [hfltr, Atest.module_group_reduce_no_break hnon "" ∅,
          Finset.empty_union]
      rw [this]
  · intro l
    ext x
    simp only [Finset.mem_filter, Atest.mem_flatten_test_infos,
      List.mem_toFinset, List.mem_filter, decide_eq_true_eq]
    constructor
    · rintro ⟨h1 | ⟨md, hmd, rfl⟩, h2⟩
      · exact ⟨h1.1, h2⟩
      · exact absurd h2 (by simp [Atest.merged_info])
    · rintro ⟨h1, h2⟩
      exact ⟨Or.inl ⟨h1, h2⟩, h2⟩

/-- C4 witness: a concrete two-descriptor module group in which one member
selects the whole module merges to a single filterless descriptor. -/
theorem c4_module_level_merge_witness :
    ∃ rc, Atest.flatten_test_infos
        [⟨"c1", some "W", none, (∅ : Finset Atest.TestFilter)⟩,
         ⟨"c2", some "W", none, ({⟨"K", {"m"}⟩} : Finset Atest.TestFilter)⟩]
      = {⟨rc, some "W", none, ∅⟩} := by
  have h := (c4_module_level_merge.1
    [⟨"c1", some "W", none, (∅ : Finset Atest.TestFilter)⟩,
     ⟨"c2", some "W", none, ({⟨"K", {"m"}⟩} : Finset Atest.TestFilter)⟩] "W"
    (by decide) (by decide)).1 (by decide)
  exact h

/-- C5 counterexample: for the claim's own example `"A#m1#m2"` (a bare
identifier), translation does end in `TooManyMethodsError`, but only after
the INTEGRATION strategy has already run a `find` subprocess — the event log
is nonempty, refuting "before any filesystem or subprocess I/O". -/
theorem c5_counterexample :
    Atest.get_test_info Atest.envEmpty "A#m1#m2"
        (Atest.get_test_reference_types "A#m1#m2")
      = ([.findCmd .INTEGRATION "/src/tools/tradefederation" "A#m1#m2"],
         .error .tooManyMethods)
    ∧ (Atest.get_test_info Atest.envEmpty "A#m1#m2"
        (Atest.get_test_reference_types "A#m1#m2")).1 ≠ [] := by
  have h : Atest.get_test_info Atest.envEmpty "A#m1#m2"
      (Atest.get_test_reference_types "A#m1#m2")
      = ([.findCmd .INTEGRATION "/src/tools/tradefederation" "A#m1#m2"],
         .error .tooManyMethods) := rfl
  refine ⟨h, ?_⟩
  rw [h]
  simp

/-- C5 (amended): `_split_methods` raises `TooManyMethodsError` exactly when
the identifier holds two or more `#` characters; translation fails with that
error before any I/O for identifiers whose first candidate strategy splits
methods immediately — e.g. those containing a `.` but no `/` or `:` and not
shaped like a relative path — whereas bare identifiers such as `"A#m1#m2"`
first run the INTEGRATION probe and the MODULE lookup, so I/O does occur
before the error. -/
theorem c5_too_many_methods :
    (∀ s : String,
      Atest.split_methods s = .error .tooManyMethods
        ↔ 2 ≤ Atest.countChar '#' s.toList)
    ∧ (∀ (env : Atest.Env) (ref : String),
        2 ≤ Atest.countChar '#' ref.toList →
        '.' ∈ ref.toList → '/' ∉ ref.toList → ':' ∉ ref.toList →
        ref.toList.take 1 ≠ ['.'] →
        Atest.containsSub ['.', '.'] ref.toList = false →
        Atest.get_test_info env ref (Atest.get_test_reference_types ref)
          = ([], .error .tooManyMethods)) := by
  refine ⟨Atest.split_methods_error_iff, ?_⟩
  intro env ref hcount hdot hslash hcolon hlead hdd
  have h1 : ¬(ref.toList.take 1 = ['.']
      ∨ Atest.containsSub ['.', '.'] ref.toList = true) := by
    rintro (h | h)
    · exact hlead h
    · rw [hdd] at h
      cases h
  have hcls : Atest.get_test_reference_types ref
      = [.FILE_PATH, .QUALIFIED_CLASS, .PACKAGE] := by
    unfold Atest.get_test_reference_types
    rw [if_neg h1, if_neg hslash, if_neg hcolon, if_pos hdot]
  have hsp := (Atest.split_methods_error_iff ref).mpr hcount
  have hpath : Atest.find_test_by_path env ref
      = ([], .error .tooManyMethods) := by
    unfold Atest.find_test_by_path
    rw [hsp]
  rw [hcls]
  simp only [Atest.get_test_info, Atest.strategy_of, hpath]

/-- C5 witness: the amended theorem applied to the dotted identifier
`"a.b#m1#m2"`, which fails before any I/O. -/
theorem c5_too_many_methods_witness :
    Atest.get_test_info Atest.envEmpty "a.b#m1#m2"
        (Atest.get_test_reference_types "a.b#m1#m2")
      = ([], .error .tooManyMethods) :=
  c5_too_many_methods.2 Atest.envEmpty "a.b#m1#m2"
    (by decide) (by decide) (by decide) (by decide) (by decide) (by decide)

/-- C6 counterexample: with a nonempty integration-root list, resolving the
bare installed module name `"Mod"` does succeed via MODULE with the expected
descriptor, but the filesystem probe *is* touched first — the INTEGRATION
strategy (ranked before MODULE by the classifier) runs a `find` subprocess,
so the event log is nonempty, refuting "without touching the filesystem
probe". -/
theorem c6_counterexample :
    Atest.get_test_info Atest.envMod "Mod"
        (Atest.get_test_reference_types "Mod")
      = ([.findCmd .INTEGRATION "/src/tools/tradefederation" "Mod"],
         .ok (some ⟨"a/b/AndroidTest.xml", some "Mod", none, ∅⟩))
    ∧ (Atest.get_test_info Atest.envMod "Mod"
        (Atest.get_test_reference_types "Mod")).1 ≠ [] := by
  have h : Atest.get_test_info Atest.envMod "Mod"
      (Atest.get_test_reference_types "Mod")
      = ([.findCmd .INTEGRATION "/src/tools/tradefederation" "Mod"],
         .ok (some ⟨"a/b/AndroidTest.xml", some "Mod", none, ∅⟩)) := rfl
  refine ⟨h, ?_⟩
  rw [h]
  simp

/-- C6 (amended): a bare identifier naming a module that is present in the
index with an installed artifact resolves via the MODULE strategy — itself
performing no filesystem access — to a descriptor with that module name, no
filters and config path `module dir ⧸ AndroidTest.xml`; but this happens
only after the higher-ranked INTEGRATION strategy has probed every
integration root with a `find` subprocess (finding nothing), so the
filesystem is touched whenever integration roots exist. -/
theorem c6_bare_module_resolution :
    ∀ (env : Atest.Env) (name : String) (entry : Atest.ModuleEntry)
      (p : String) (ps : List String),
      '/' ∉ name.toList → ':' ∉ name.toList → '.' ∉ name.toList →
      '#' ∉ name.toList →
      Atest.dict_get env.module_info name = some entry →
      entry.installed ≠ [] → entry.path = p :: ps →
      (∀ d ∈ env.integration_dirs,
        Atest.extract_test_path
          (env.find_out .INTEGRATION (Atest.pathJoin env.root_dir d) name)
          env.choice = none) →
      Atest.get_test_info env name (Atest.get_test_reference_types name)
        = (env.integration_dirs.map (fun d =>
            Atest.IOEvent.findCmd .INTEGRATION (Atest.pathJoin env.root_dir d)
              name),
           .ok (some ⟨Atest.pathJoin p Atest.MODULE_CONFIG, some name, none,
             ∅⟩)) := by
  intro env name entry p ps hslash hcolon hdot hhash hlookup hinst hpath hprobe
  have hlead : name.toList.take 1 ≠ ['.'] :=
    fun h => hdot (Atest.mem_of_take_one h)
  have hdd : Atest.containsSub ['.', '.'] name.toList = false := by
    cases h : Atest.containsSub ['.', '.'] name.toList
    · rfl
    · exact absurd (Atest.mem_of_containsSub_cons h) hdot
  have h1 : ¬(name.toList.take 1 = ['.']
      ∨ Atest.containsSub ['.', '.'] name.toList = true) := by
    rintro (h | h)
    · exact hlead h
    · rw [hdd] at h
      cases h
  have hcls : Atest.get_test_reference_types name
      = [.INTEGRATION, .MODULE, .CLASS] := by
    unfold Atest.get_test_reference_types
    rw [if_neg h1, if_neg hslash, if_neg hcolon, if_neg hdot]
  have hint : Atest.find_test_by_integration_name env name
      = (env.integration_dirs.map (fun d =>
          Atest.IOEvent.findCmd .INTEGRATION (Atest.pathJoin env.root_dir d)
            name),
         .ok none) := by
    unfold Atest.find_test_by_integration_name
    rw [if_neg hcolon]
    exact Atest.integration_loop_no_match ∅ env.integration_dirs hprobe
  have hmod : Atest.find_test_by_module_name env name
      = .ok (some ⟨Atest.pathJoin p Atest.MODULE_CONFIG, some name, none,
          ∅⟩) := by
    unfold Atest.find_test_by_module_name
    rw [hlookup]
    simp only [if_pos hinst, hpath]
    rfl
  rw [hcls]
  simp only [Atest.get_test_info, Atest.strategy_of, hint, hmod,
    List.append_nil]

/-- C6 witness: the amended theorem applied to the concrete environment
holding module `Mod` at `a/b`. -/
theorem c6_bare_module_resolution_witness :
    Atest.get_test_info Atest.envMod "Mod"
        (Atest.get_test_reference_types "Mod")
      = (Atest.envMod.integration_dirs.map (fun d =>
          Atest.IOEvent.findCmd .INTEGRATION
            (Atest.pathJoin Atest.envMod.root_dir d) "Mod"),
         .ok (some ⟨Atest.pathJoin "a/b" Atest.MODULE_CONFIG, some "Mod", none,
           ∅⟩)) :=
  c6_bare_module_resolution Atest.envMod "Mod" ⟨["a/b"], ["out/Mod.apk"]⟩
    "a/b" [] (by decide) (by decide) (by decide) (by decide) (by decide)
    (by decide) (by decide) (by decide)

/-- C7: when a class-name probe yields multiple candidates,
`_extract_test_path` does not silently pick one — the candidates are the
`find` output lines in their deterministic output order (`candidate_list`,
exactly the numbered list the code prints), and the returned path is the
candidate at the externally supplied index (the `raw_input` read, modelled
as the `choice` parameter), so a single result is produced only through that
external disambiguating decision, and distinct decisions select distinct
candidates. -/
theorem c7_ambiguity_requires_external_choice :
    ∀ (output : String) (choice : Nat),
      output ≠ "" →
      1 < (Atest.candidate_list output).length →
      choice < (Atest.candidate_list output).length →
      Atest.extract_test_path output choice
        = (Atest.candidate_list output).get? choice
      ∧ (Atest.extract_test_path output choice).isSome = true
      ∧ ∀ c₁ c₂ : Nat,
          (Atest.candidate_list output).get? c₁
            ≠ (Atest.candidate_list output).get? c₂ →
          Atest.extract_test_path output c₁ ≠ Atest.extract_test_path output c₂ := by
  intro out choice hne hlen hc
  have hext : ∀ c : Nat,
      Atest.extract_test_path out c = (Atest.candidate_list out).get? c := by
    intro c
    have hdef : Atest.extract_test_path out c
        = if out = "" then none
          else (Atest.candidate_list out).get?
            (if 1 < (Atest.candidate_list out).length then c else 0) := rfl
    rw [hdef, if_neg hne, if_pos hlen]
  refine ⟨hext choice, ?_, ?_⟩
  · rw [hext choice, List.get?_eq_get hc]
    rfl
  · intro c₁ c₂ hne'
    rw [hext c₁, hext c₂]
    exact hne'

/-- C7 witness: a two-candidate `find` output; the external index 1 selects
the second candidate. -/
theorem c7_ambiguity_requires_external_choice_witness :
    Atest.extract_test_path "/a/X.java\n/b/X.java" 1 = some "/b/X.java" := by
  have h := (c7_ambiguity_requires_external_choice "/a/X.java\n/b/X.java" 1
    (by decide) (by decide) (by decide)).1
  rw [h]
  rfl

/-- C8: resolving `"Module:ClassName#m1,m2"` against an index where `Module`
is installed and the class probe finds the single file
`/src/mdir/src/ClassName.java` declaring `package fully.qualified` yields
the descriptor whose merged serialized form is
`{"test": "Module", "filters": ["fully.qualified.ClassName#m1",
"fully.qualified.ClassName#m2"]}`; and in general `to_set_of_tf_strings`
emits one `Class#Method` string per method, or the single bare class name
when the method set is empty. -/
theorem c8_round_trip :
    Atest.get_test_info Atest.envRoundTrip "Module:ClassName#m1,m2"
        (Atest.get_test_reference_types "Module:ClassName#m1,m2")
      = ([.findCmd .CLASS "/src/mdir" "ClassName",
          .readFile "/src/mdir/src/ClassName.java"],
         .ok (some ⟨"mdir/AndroidTest.xml", some "Module", none,
           {⟨"fully.qualified.ClassName", {"m1", "m2"}⟩}⟩))
    ∧ (Atest.flatten_test_infos
        [⟨"mdir/AndroidTest.xml", some "Module", none,
          {⟨"fully.qualified.ClassName", {"m1", "m2"}⟩}⟩]).image
          Atest.to_tf_dict
        = {(some "Module",
            {"fully.qualified.ClassName#m1", "fully.qualified.ClassName#m2"})}
    ∧ (∀ f : Atest.TestFilter,
        Atest.to_set_of_tf_strings f
          = if f.methods = ∅ then {f.class_name}
            else f.methods.image (fun m => f.class_name ++ "#" ++ m)) :=
  ⟨rfl, by decide, fun f => rfl⟩

/-- C9: integration-name resolution probes the known roots sequentially in
their fixed order; the first root whose probe yields a test file decides the
outcome (its `find` event is the last one logged — later roots are never
probed, so there is no cross-root merging), and when the name derived from
the found file's path differs from the requested name the match is rejected
and resolution returns not-found instead of adopting the divergent name. -/
theorem c9_first_root_wins_and_name_mismatch_rejected :
    ∀ (env : Atest.Env) (name f d : String) (ds₁ ds₂ : List String),
      ':' ∉ name.toList →
      env.integration_dirs = ds₁ ++ d :: ds₂ →
      (∀ d' ∈ ds₁,
        Atest.extract_test_path
          (env.find_out .INTEGRATION (Atest.pathJoin env.root_dir d') name)
          env.choice = none) →
      Atest.extract_test_path
          (env.find_out .INTEGRATION (Atest.pathJoin env.root_dir d) name)
          env.choice = some f →
      f ≠ "" →
      Atest.find_test_by_integration_name env name
        = ((ds₁ ++ [d]).map (fun d' =>
            Atest.IOEvent.findCmd .INTEGRATION (Atest.pathJoin env.root_dir d')
              name),
           match Atest.int_name_of f with
           | none => .ok none
           | some n =>
             if n = name then
               .ok (some ⟨Atest.relpath f env.root_dir, none, some name, ∅⟩)
             else .ok none) := by
  intro env name f d ds₁ ds₂ hcolon hdirs hmiss hhit hf
  unfold Atest.find_test_by_integration_name
  rw [if_neg hcolon, hdirs]
  exact Atest.integration_loop_first_match ∅ hhit hf ds₁ hmiss

/-- C9 witness: three roots, the second finds a config whose derived name
`suite/y` differs from the requested `suite/x` — only the first two roots
are probed and the result is not-found. -/
theorem c9_first_root_wins_witness :
    Atest.find_test_by_integration_name Atest.envIntRoots "suite/x"
      = ([.findCmd .INTEGRATION "/src/t1" "suite/x",
          .findCmd .INTEGRATION "/src/t2" "suite/x"], .ok none) := by
  have h := c9_first_root_wins_and_name_mismatch_rejected Atest.envIntRoots
    "suite/x" "/src/t2/res/config/suite/y.xml" "t2" ["t1"] ["t3"]
    (by decide) rfl (by decide) (by decide) (by decide)
  exact h.trans (by rfl)

/-- C10: for identifiers holding two or more `:` characters the MODULE_CLASS
and INTEGRATION strategies do not report not-found — the unguarded two-way
unpacking of `split(':')` raises `ValueError` (before any I/O), and for such
an identifier that is not path-shaped the classifier ranks MODULE_CLASS
first, so translation terminates with that undocumented exception. -/
theorem c10_two_colons_value_error :
    (∀ (env : Atest.Env) (ref : String),
      2 ≤ Atest.countChar ':' ref.toList →
      Atest.find_test_by_module_and_class env ref = ([], .error .valueError)
      ∧ Atest.find_test_by_integration_name env ref
          = ([], .error .valueError))
    ∧ (∀ (env : Atest.Env) (ref : String),
        2 ≤ Atest.countChar ':' ref.toList →
        '/' ∉ ref.toList → ref.toList.take 1 ≠ ['.'] →
        Atest.containsSub ['.', '.'] ref.toList = false →
        Atest.get_test_info env ref (Atest.get_test_reference_types ref)
          = ([], .error .valueError)) := by
  have hstrat : ∀ (env : Atest.Env) (ref : String),
      2 ≤ Atest.countChar ':' ref.toList →
      Atest.find_test_by_module_and_class env ref = ([], .error .valueError)
      ∧ Atest.find_test_by_integration_name env ref
          = ([], .error .valueError) := by
    intro env ref hcount
    have hmem : ':' ∈ ref.toList :=
      Atest.mem_of_countChar_pos (by omega)
    have hun := Atest.unpack2_error_of_two_colons hcount
    constructor
    · unfold Atest.find_test_by_module_and_class
      rw [hun]
    · unfold Atest.find_test_by_integration_name
      rw [if_pos hmem, hun]
  refine ⟨hstrat, ?_⟩
  intro env ref hcount hslash hlead hdd
  have hmem : ':' ∈ ref.toList :=
    Atest.mem_of_countChar_pos (by omega)
  have h1 : ¬(ref.toList.take 1 = ['.']
      ∨ Atest.containsSub ['.', '.'] ref.toList = true) := by
    rintro (h | h)
    · exact hlead h
    · rw [hdd] at h
      cases h
  have hmc := (hstrat env ref hcount).1
  by_cases hdot : '.' ∈ ref.toList
  · have hcls : Atest.get_test_reference_types ref
        = [.MODULE_CLASS, .MODULE_PACKAGE, .INTEGRATION] := by
      unfold Atest.get_test_reference_types
      rw [if_neg h1, if_neg hslash, if_pos hmem, if_pos hdot]
    rw [hcls]
    simp only [Atest.get_test_info, Atest.strategy_of, hmc]
  · have hcls : Atest.get_test_reference_types ref
        = [.MODULE_CLASS, .INTEGRATION] := by
      unfold Atest.get_test_reference_types
      rw [if_neg h1, if_neg hslash, if_pos hmem, if_neg hdot]
    rw [hcls]
    simp only [Atest.get_test_info, Atest.strategy_of, hmc]

/-- C10 witness: the identifier `"a:b:c"` makes both strategies raise
`ValueError`, and translation of it terminates with that error having
performed no I/O. -/
theorem c10_two_colons_value_error_witness :
    Atest.get_test_info Atest.envEmpty "a:b:c"
        (Atest.get_test_reference_types "a:b:c")
      = ([], .error .valueError) :=
  c10_two_colons_value_error.2 Atest.envEmpty "a:b:c"
    (by decide) (by decide) (by decide) (by decide)
